import Mathlib

/-!
# Verification of the `eventgridCreateBinaryStreamMetadata` Azure function

A shallow embedding of `src/index.js` (the event-grid handler that builds a
binary-stream-object descriptor from blob metadata and posts it to an RDP API
server).  JavaScript objects whose keys are metadata names are modelled as
insertion-ordered association lists (`List (String × _)`); JavaScript string
truthiness (`""` is falsy) is modelled explicitly; `context.done` calls are
collected in order as `Option String` values (`none` = `context.done()`,
`some msg` = `context.done(msg)`).
-/

namespace EventGridFn

/-! ## JavaScript string primitives -/

/-- ASCII lower-casing of a single character, as performed by JavaScript's
`String.prototype.toLowerCase` on ASCII input (metadata keys are ASCII). -/
def jsToLowerChar (c : Char) : Char :=
  if 65 ≤ c.toNat ∧ c.toNat ≤ 90 then Char.ofNat (c.toNat + 32) else c

/-- Models `s.toLowerCase()` on ASCII strings. -/
def jsToLower (s : String) : String :=
  String.mk (s.data.map jsToLowerChar)

/-- Replace the first occurrence of `pat` by `rep`, as JavaScript's
`String.prototype.replace` does when called with a string pattern. -/
def replaceFirst (pat rep : List Char) : List Char → List Char
  | [] => if pat.isEmpty then rep else []
  | c :: t =>
    if pat.isPrefixOf (c :: t) then rep ++ (c :: t).drop pat.length
    else c :: replaceFirst pat rep t

/-- Split a character list at every `'/'`, as JavaScript's
`String.prototype.split('/')` does: `""` yields `[""]`, adjacent separators
yield empty segments. -/
def splitSlashChars : List Char → List (List Char)
  | [] => [[]]
  | c :: t =>
    let r := splitSlashChars t
    if c = '/' then [] :: r
    else
      match r with
      | [] => [[c]]
      | h :: t2 => (c :: h) :: t2

/-- Models `s.split("/")` from JavaScript. -/
def jsSplitSlash (s : String) : List String :=
  (splitSlashChars s.data).map String.mk

/-- Substring test on character lists (`haystack` contains `sub`). -/
def hasSubstr (sub : List Char) : List Char → Bool
  | [] => sub.isEmpty
  | c :: t => sub.isPrefixOf (c :: t) || hasSubstr sub t

/-- Models `s.includes(sub)` from JavaScript. -/
def jsIncludes (s sub : String) : Bool :=
  hasSubstr sub.data s.data

/-- Models `s.startsWith(pre)` from JavaScript (used to state the spec's
"starts with the reserved prefix"). -/
def jsStartsWith (s pre : String) : Bool :=
  pre.data.isPrefixOf s.data

/-- JavaScript truthiness of a string value (`""` is falsy). -/
def jsTruthyStr (s : String) : Bool := !s.isEmpty

/-- JavaScript truthiness of a possibly-undefined string value
(`undefined` and `""` are falsy). -/
def jsTruthy : Option String → Bool
  | none => false
  | some s => jsTruthyStr s

/-! ## Association lists standing for JavaScript objects -/

/-- Property read `m[k]` on an object modelled as an association list
(`none` = `undefined`). -/
def lookupA {α : Type} : List (String × α) → String → Option α
  | [], _ => none
  | p :: t, k => if p.1 == k then some p.2 else lookupA t k

/-- The keys of an association list, in insertion order. -/
def keysOf {α : Type} (m : List (String × α)) : List String :=
  m.map Prod.fst

/-- Property write `m[k] = v` on a JavaScript object: overwrite in place if the
key exists (keeping its position), otherwise append. -/
def setKey {α : Type} (m : List (String × α)) (k : String) (v : α) :
    List (String × α) :=
  if m.any (fun p => p.1 == k) then
    m.map (fun p => if p.1 == k then (k, v) else p)
  else m ++ [(k, v)]

/-- Property deletion `delete m[k]`. -/
def removeKey {α : Type} (m : List (String × α)) (k : String) :
    List (String × α) :=
  m.filter (fun p => !(p.1 == k))

/-! ## Metadata-key normalization (source: `getBlobMetadata`, src/index.js 76-84) -/

/-- Source constant `RDP_ESCAPING_PREFIX = 'x_rdp_'`. -/
def rdpEscapePre : String := "x_rdp_"

/-- Source constant `RDP_PREFIX = 'x-rdp-'`. -/
def rdpCanonPre : String := "x-rdp-"

/-- Source constant `TASK_ID_METADATA_PROPERTY = 'x-rdp-taskid'`. -/
def taskIdMetadataProp : String := "x-rdp-taskid"

/-- Key normalization from `getBlobMetadata`:
`(metadataKey.replace(RDP_ESCAPING_PREFIX, RDP_PREFIX)).toLowerCase()` —
replace the first occurrence of the escaping prefix, then lower-case. -/
def normKey (k : String) : String :=
  jsToLower (String.mk (replaceFirst rdpEscapePre.data rdpCanonPre.data k.data))

/-- One iteration of the normalization loop:
`blobMetadata[normKey(k)] = v`. -/
def normStep (acc : List (String × String)) (p : String × String) :
    List (String × String) :=
  setKey acc (normKey p.1) p.2

/-- The normalization loop of `getBlobMetadata`: a fresh object is populated
with `blobMetadata[normKey(k)] = v` for each incoming entry, in order. -/
def normalizeMetadata (m : List (String × String)) : List (String × String) :=
  m.foldl normStep []

/-- A `blobMetadataResult` as delivered by `azure-storage`'s
`getBlobMetadata` callback: the blob name and its metadata object. -/
structure BlobMetadataResult where
  name : String
  metadata : List (String × String)
  deriving DecidableEq, Repr

/-- Source function `getBlobMetadata` (src/index.js 76-84): normalize every metadata key of the
fetched result. -/
def getBlobMetadata (r : BlobMetadataResult) : List (String × String) :=
  normalizeMetadata r.metadata

/-! ## Environment configuration (source: `getEnvironmentConfiguration`, src/index.js 255-307) -/

/-- The process environment: each required variable is either unset (`none`)
or set to a string (possibly empty, which JavaScript treats as falsy). -/
structure Env where
  StorageConStr : Option String
  ENV_RDP_HOST : Option String
  ENV_RDP_PORT : Option String
  ENV_CLIENT_ID : Option String
  ENV_DEFAULT_USER_ID : Option String
  ENV_DEFAULT_USER_ROLES : Option String
  deriving DecidableEq, Repr

/-- The object literal returned by `getEnvironmentConfiguration`
(src/index.js 299-305).  Note that it has no `StorageConStr` property:
reading `envConfig.StorageConStr` in the handler yields `undefined`. -/
structure EnvConfig where
  rdpHost : String
  rdpPort : String
  defaultClientId : String
  defaultUserId : String
  defaultUserRoles : String
  deriving DecidableEq, Repr

/-- What `getEnvironmentConfiguration` did: the returned value (`none` models
`return null`), the `context.log.error` messages, and the `context.done`
calls it issued, in order. -/
structure EnvCheckResult where
  config : Option EnvConfig
  errorLogs : List String
  completions : List (Option String)
  deriving DecidableEq, Repr

/-- Source function `getEnvironmentConfiguration` (src/index.js 255-307): check the six
required variables in order; on the first falsy one, log the error, call
`context.done(errorMsg)` and return `null`; otherwise return the config
object built from the five `ENV_*` variables. -/
def getEnvironmentConfiguration (env : Env) : EnvCheckResult :=
  if !jsTruthy env.StorageConStr then
    let m := "Unable to locate environment variable StorageConStr"
    ⟨none, [m], [some m]⟩
  else if !jsTruthy env.ENV_RDP_HOST then
    let m := "Unable to locate environment variable ENV_RDP_HOST"
    ⟨none, [m], [some m]⟩
  else if !jsTruthy env.ENV_RDP_PORT then
    let m := "Unable to locate environment variable ENV_RDP_PORT"
    ⟨none, [m], [some m]⟩
  else if !jsTruthy env.ENV_CLIENT_ID then
    let m := "Unable to locate environment variable ENV_CLIENT_ID"
    ⟨none, [m], [some m]⟩
  else if !jsTruthy env.ENV_DEFAULT_USER_ID then
    let m := "Unable to locate environment variable ENV_DEFAULT_USER_ID"
    ⟨none, [m], [some m]⟩
  else if !jsTruthy env.ENV_DEFAULT_USER_ROLES then
    let m := "Unable to locate environment variable ENV_DEFAULT_USER_ROLES"
    ⟨none, [m], [some m]⟩
  else
    ⟨some { rdpHost := env.ENV_RDP_HOST.getD ""
            rdpPort := env.ENV_RDP_PORT.getD ""
            defaultClientId := env.ENV_CLIENT_ID.getD ""
            defaultUserId := env.ENV_DEFAULT_USER_ID.getD ""
            defaultUserRoles := env.ENV_DEFAULT_USER_ROLES.getD "" },
     [], []⟩

/-! ## Request headers (source: `createRequestHeaders`, src/index.js 86-104) -/

/-- The headers object built by `createRequestHeaders`.  `Content-Type` and
`x-rdp-version` are the fixed literals `'application/json'` and `'8.1'`;
`x-rdp-ownershipData` is set only when present (and truthy) in the metadata. -/
structure Headers where
  contentType : String
  xRdpVersion : String
  xRdpClientId : String
  xRdpTenantId : String
  xRdpUserId : String
  xRdpUserRoles : String
  xRdpOwnershipData : Option String
  deriving DecidableEq, Repr

/-- Source function `getPropertyValueFromMetadata` (src/index.js 108-114): the metadata value
when present and truthy, the default otherwise. -/
def getPropertyValueFromMetadata (blobMetadata : List (String × String))
    (propertyName defaultValue : String) : String :=
  if jsTruthy (lookupA blobMetadata propertyName) then
    (lookupA blobMetadata propertyName).getD defaultValue
  else defaultValue

/-- Source function `createRequestHeaders` (src/index.js 86-104). -/
def createRequestHeaders (envConfig : EnvConfig)
    (blobMetadata : List (String × String)) : Headers :=
  { contentType := "application/json"
    xRdpVersion := "8.1"
    xRdpClientId :=
      getPropertyValueFromMetadata blobMetadata "x-rdp-clientid" envConfig.defaultClientId
    xRdpTenantId := (lookupA blobMetadata "x-rdp-tenantid").getD ""
    xRdpUserId :=
      if jsTruthy (lookupA blobMetadata "x-rdp-userid") then
        (lookupA blobMetadata "x-rdp-userid").getD ""
      else envConfig.defaultUserId
    xRdpUserRoles :=
      if jsTruthy (lookupA blobMetadata "x-rdp-userroles") then
        (lookupA blobMetadata "x-rdp-userroles").getD ""
      else envConfig.defaultUserRoles
    xRdpOwnershipData :=
      if jsTruthy (lookupA blobMetadata "x-rdp-ownershipdata") then
        lookupA blobMetadata "x-rdp-ownershipdata"
      else none }

/-! ## Building the binary stream object (source: `buildBinaryStreamObject`, src/index.js 117-182) -/

/-- A JavaScript value stored in the descriptor's `properties` object:
either a string (metadata values, header values) or a number
(`eventGridEvent.data.contentLength`). -/
inductive JsVal where
  | s : String → JsVal
  | n : Nat → JsVal
  deriving DecidableEq, Repr

/-- The incoming event-grid event: `subject`, `data.url` and
`data.contentLength`. -/
structure EventGridEvent where
  subject : String
  dataUrl : String
  dataContentLength : Nat
  deriving DecidableEq, Repr

/-- The descriptor built by `buildBinaryStreamObject`.  `taskIdValue` is
`clientAttributes.taskId.values[0].value` (its `locale`/`source` companions
are the fixed literals `'en-US'`/`'internal'`); the object block carries its
`id`, its fixed `type` literal and the `properties` object in insertion
order. -/
structure BinaryStreamObject where
  taskIdValue : String
  id : String
  objType : String
  properties : List (String × JsVal)
  deriving DecidableEq, Repr

/-- The copy-through loop body (src/index.js 173-180): append a metadata
entry as a property unless its key contains `'x-rdp'`
(`propertyName.includes('x-rdp')`) or the property already exists
(`hasOwnProperty`). -/
def addProp (ps : List (String × JsVal)) (p : String × String) :
    List (String × JsVal) :=
  if !jsIncludes p.1 "x-rdp" && !(ps.any fun q => q.1 == p.1) then
    ps ++ [(p.1, JsVal.s p.2)]
  else ps

/-- The `properties` object literal of src/index.js 157-164, with
`ownershipData` appended when the ownership header is present
(src/index.js 168-170): the state of the properties object just before the
copy-through loop runs. -/
def initialProps (blobObjectKey assignedOriginalFileName : String)
    (contentLength : Nat) (headers : Headers) : List (String × JsVal) :=
  let baseProps : List (String × JsVal) :=
    [("objectKey", JsVal.s blobObjectKey),
     ("originalFileName", JsVal.s assignedOriginalFileName),
     ("fullObjectPath", JsVal.s blobObjectKey),
     ("contentSize", JsVal.n contentLength),
     ("user", JsVal.s headers.xRdpUserId),
     ("role", JsVal.s headers.xRdpUserRoles)]
  if jsTruthy headers.xRdpOwnershipData then
    baseProps ++ [("ownershipData", JsVal.s (headers.xRdpOwnershipData.getD ""))]
  else baseProps

/-- The metadata object as the copy-through loop sees it: `originalfilename`
has been deleted when present and truthy (src/index.js 130-136). -/
def remainingMetadata (m : List (String × String)) : List (String × String) :=
  if jsTruthy (lookupA m "originalfilename") then removeKey m "originalfilename"
  else m

/-- Source function `buildBinaryStreamObject` (src/index.js 117-182).  The raw (un-normalized)
`blobMetadataResult.metadata` is consulted for `binarystreamobjectid`,
`originalfilename` (which is deleted when present and truthy) and for the key
literally spelled `TASK_ID_METADATA_PROPERTY` — the source reads
`blobMetadata.TASK_ID_METADATA_PROPERTY`, a property access by that literal
name, not by the constant's value `'x-rdp-taskid'`. -/
def buildBinaryStreamObject (invocationId : String) (eventGridEvent : EventGridEvent)
    (blobMetadataResult : BlobMetadataResult) (headers : Headers) :
    BinaryStreamObject :=
  let blobObjectKey := blobMetadataResult.name
  let blobMetadata := blobMetadataResult.metadata
  let assignedObjectId :=
    if jsTruthy (lookupA blobMetadata "binarystreamobjectid") then
      (lookupA blobMetadata "binarystreamobjectid").getD ""
    else invocationId
  let assignedOriginalFileName :=
    if jsTruthy (lookupA blobMetadata "originalfilename") then
      (lookupA blobMetadata "originalfilename").getD ""
    else (jsSplitSlash blobObjectKey).getLastD ""
  let blobMetadata2 := remainingMetadata blobMetadata
  let taskId :=
    if jsTruthy (lookupA blobMetadata2 "TASK_ID_METADATA_PROPERTY") then
      (lookupA blobMetadata2 "TASK_ID_METADATA_PROPERTY").getD ""
    else invocationId
  { taskIdValue := taskId
    id := assignedObjectId
    objType := "binarystreamobject"
    properties :=
      blobMetadata2.foldl addProp
        (initialProps blobObjectKey assignedOriginalFileName
          eventGridEvent.dataContentLength headers) }

/-! ## The metadata-fetch callback (source: src/index.js 47-70) -/

/-- What the storage service handed to the `getBlobMetadata` callback:
a truthy `error`, or a result (possibly null — the source re-checks
`if (blobMetadataResult)`). -/
inductive FetchOutcome where
  | err : FetchOutcome
  | ok : Option BlobMetadataResult → FetchOutcome
  deriving DecidableEq, Repr

/-- What the metadata callback did: whether `postBinaryStreamObject` was
invoked (and with what payload), the plain `context.log` lines, the
`context.log.error` lines, and the `context.done` calls it issued. -/
structure CallbackResult where
  postAttempted : Bool
  posted : Option (Headers × BinaryStreamObject)
  logs : List String
  errorLogs : List String
  completions : List (Option String)
  deriving DecidableEq, Repr

/-- The anonymous callback passed to `blobService.getBlobMetadata`
(src/index.js 48-70).  `subjectLogged` is the handler's `subjectVal` array at
the time of the error log — note `subjectVal.pop()` (line 31) has already
removed its last element.  On fetch error the source logs twice and calls
`context.done()` with no argument; on a null result it does nothing; on a
result it normalizes the metadata and either posts (tenant id present and
truthy) or logs the tenant-missing error without completing with an error. -/
def onMetadataFetched (envConfig : EnvConfig) (eventGridEvent : EventGridEvent)
    (invocationId : String) (subjectLogged : List String)
    (outcome : FetchOutcome) : CallbackResult :=
  match outcome with
  | FetchOutcome.err =>
    { postAttempted := false, posted := none
      logs := ["Error fetching metadata",
               "subjectVal: " ++ String.intercalate "," subjectLogged]
      errorLogs := []
      completions := [none] }
  | FetchOutcome.ok none =>
    { postAttempted := false, posted := none, logs := [], errorLogs := []
      completions := [] }
  | FetchOutcome.ok (some blobMetadataResult) =>
    let blobMetadata := getBlobMetadata blobMetadataResult
    if jsTruthy (lookupA blobMetadata "x-rdp-tenantid") then
      let headers := createRequestHeaders envConfig blobMetadata
      let binaryStreamObject :=
        buildBinaryStreamObject invocationId eventGridEvent blobMetadataResult headers
      { postAttempted := true, posted := some (headers, binaryStreamObject)
        logs := [], errorLogs := [], completions := [] }
    else
      { postAttempted := false, posted := none, logs := []
        errorLogs := ["TenantId is not present in asset metadata"]
        completions := [] }

/-! ## The exported handler (source: `module.exports`, src/index.js 18-74) -/

/-- Observable behaviour of one handler invocation: whether the metadata
fetch was issued (and for which container/blob), whether the HTTP POST was
issued, the `context.log.error` lines, and the `context.done` calls in
chronological order (the storage callback runs asynchronously, after the
trailing `context.done()` of line 73, so its completions come last). -/
structure HandlerResult where
  fetchAttempted : Bool
  fetchRequested : Option (String × String)
  postAttempted : Bool
  errorLogs : List String
  completions : List (Option String)
  deriving DecidableEq, Repr

/-- Source function `module.exports` (src/index.js 18-74).  The subject is split on `'/'`;
only a 7-segment split is processed.  The fetch is guarded by
`envConfig && envConfig.StorageConStr` (line 42), and since the object
returned by `getEnvironmentConfiguration` defines no `StorageConStr`
property, that read yields `undefined`; the guard is modelled by
`jsTruthy none`.  Line 73 calls `context.done()` unconditionally. -/
def handleEvent (env : Env) (eventGridEvent : EventGridEvent)
    (invocationId : String) (fetch : FetchOutcome) : HandlerResult :=
  let subjectVal := jsSplitSlash eventGridEvent.subject
  if subjectVal.length = 7 then
    let containerName := subjectVal.getD 4 ""
    let fileBlobName := subjectVal.getLastD ""
    let poppedSubjectVal := subjectVal.dropLast
    let envCheck := getEnvironmentConfiguration env
    match envCheck.config with
    | some envConfig =>
      -- envConfig is truthy, but envConfig.StorageConStr is undefined
      if jsTruthy (none : Option String) then
        let cb := onMetadataFetched envConfig eventGridEvent invocationId
                    poppedSubjectVal fetch
        { fetchAttempted := true
          fetchRequested := some (containerName, fileBlobName)
          postAttempted := cb.postAttempted
          errorLogs := envCheck.errorLogs ++ cb.errorLogs
          completions := envCheck.completions ++ [none] ++ cb.completions }
      else
        { fetchAttempted := false, fetchRequested := none, postAttempted := false
          errorLogs := envCheck.errorLogs
          completions := envCheck.completions ++ [none] }
    | none =>
      { fetchAttempted := false, fetchRequested := none, postAttempted := false
        errorLogs := envCheck.errorLogs
        completions := envCheck.completions ++ [none] }
  else
    { fetchAttempted := false, fetchRequested := none, postAttempted := false
      errorLogs := [], completions := [none] }

/-! ## JSON values and `JSON.parse` (used by `postBinaryStreamObject`'s
response handling, src/index.js 216-236) -/

/-- A parsed JSON value. -/
inductive Json where
  | jnull : Json
  | jbool : Bool → Json
  | jnum : Int → Json
  | jstr : String → Json
  | jarr : List Json → Json
  | jobj : List (String × Json) → Json

/-- JavaScript truthiness of a JSON value (`null`, `false`, `0` and `""` are
falsy; objects and arrays are always truthy). -/
def jsTruthyJson : Json → Bool
  | Json.jnull => false
  | Json.jbool b => b
  | Json.jnum n => n != 0
  | Json.jstr s => !s.isEmpty
  | Json.jarr _ => true
  | Json.jobj _ => true

/-- Property access `j[k]` on a parsed JSON value: a field of an object, and
`undefined` (`none`) on every non-object (the source only reads properties
after a truthiness check, so `null` never reaches this access). -/
def getField : Json → String → Option Json
  | Json.jobj fields, k => lookupA fields k
  | _, _ => none

/-- JSON whitespace: space, tab, line feed, carriage return (by code
point). -/
def isJsonWs (c : Char) : Bool :=
  c.toNat = 32 || c.toNat = 9 || c.toNat = 10 || c.toNat = 13

/-- Whitespace skipping for the JSON reader. -/
def skipWs : List Char → List Char
  | [] => []
  | c :: t => if isJsonWs c then skipWs t else c :: t

/-- Simple JSON string escapes (`\uXXXX` is not modelled; a body using it
fails to parse in the model, which like a real parse error yields a thrown
exception and hence a non-success completion).  The escapes that denote
themselves are grouped; the control escapes map to their code points. -/
def escChar (e : Char) : Option Char :=
  if e.toNat = 34 || e.toNat = 92 || e.toNat = 47 then some e
  else if e.toNat = 110 then some (Char.ofNat 10)
  else if e.toNat = 116 then some (Char.ofNat 9)
  else if e.toNat = 114 then some (Char.ofNat 13)
  else if e.toNat = 98 then some (Char.ofNat 8)
  else if e.toNat = 102 then some (Char.ofNat 12)
  else none

/-- Read a JSON string body up to its closing quote. -/
def parseStringBody : List Char → Option (List Char × List Char)
  | [] => none
  | c :: t =>
    if c = '"' then some ([], t)
    else if c = '\\' then
      match t with
      | [] => none
      | e :: t2 =>
        match escChar e with
        | none => none
        | some ec => (parseStringBody t2).map (fun p => (ec :: p.1, p.2))
    else (parseStringBody t).map (fun p => (c :: p.1, p.2))

/-- Longest leading run of decimal digits. -/
def takeDigits : List Char → (List Char × List Char)
  | [] => ([], [])
  | c :: t =>
    if c.isDigit then
      let p := takeDigits t
      (c :: p.1, p.2)
    else ([], c :: t)

/-- Decimal digits to a natural number. -/
def digitsToNat (ds : List Char) : Nat :=
  ds.foldl (fun a c => a * 10 + (c.toNat - 48)) 0

/-- JavaScript objects keep the last of duplicate keys delivered by the
parser. -/
def objOfPairs (l : List (String × Json)) : List (String × Json) :=
  l.foldl (fun acc p => setKey acc p.1 p.2) []

/-- Reader mode: a full value, the members of an object after its opening
brace, or the elements of an array after its opening bracket.  A single
mode-indexed function keeps the recursion structural on the fuel so that
concrete parses reduce definitionally.  The object/array payload of a
members/elements result is carried as a `Json` constructor. -/
inductive PMode where
  | value : PMode
  | members : PMode
  | elems : PMode
  deriving DecidableEq, Repr

/-- Fueled recursive-descent JSON reader: one item (per mode) and the
remaining input.  Models `JSON.parse` on the integer/string/object/array
fragment (number fractions, exponents and `\u` escapes are not modelled; a
body outside the fragment fails to parse, which like a real `SyntaxError`
yields a thrown exception and hence a non-success completion).  In
`members` mode the raw field list (duplicates included) is returned as a
`jobj`; the `value` branch dedups it with `objOfPairs`. -/
def parseStep : Nat → PMode → List Char → Option (Json × List Char)
  | 0, _, _ => none
  | Nat.succ fuel, PMode.value, cs =>
    (match skipWs cs with
     | '"' :: t => (parseStringBody t).map (fun p => (Json.jstr (String.mk p.1), p.2))
     | '\x7b' :: t =>
       (match skipWs t with
        | '\x7d' :: r => some (Json.jobj [], r)
        | _ =>
          match parseStep fuel PMode.members (skipWs t) with
          | some (Json.jobj raw, r) => some (Json.jobj (objOfPairs raw), r)
          | _ => none)
     | '[' :: t =>
       (match skipWs t with
        | ']' :: r => some (Json.jarr [], r)
        | _ =>
          match parseStep fuel PMode.elems (skipWs t) with
          | some (Json.jarr es, r) => some (Json.jarr es, r)
          | _ => none)
     | '-' :: t =>
       (match takeDigits t with
        | ([], _) => none
        | (ds, r) => some (Json.jnum (-(digitsToNat ds : Int)), r))
     | c :: t =>
       if c.isDigit then
         match takeDigits (c :: t) with
         | (ds, r) => some (Json.jnum (digitsToNat ds), r)
       else if ("true" : String).data.isPrefixOf (c :: t) then
         some (Json.jbool true, (c :: t).drop 4)
       else if ("false" : String).data.isPrefixOf (c :: t) then
         some (Json.jbool false, (c :: t).drop 5)
       else if ("null" : String).data.isPrefixOf (c :: t) then
         some (Json.jnull, (c :: t).drop 4)
       else none
     | [] => none)
  | Nat.succ fuel, PMode.members, cs =>
    (match skipWs cs with
     | '"' :: t =>
       (match parseStringBody t with
        | none => none
        | some (key, r1) =>
          match skipWs r1 with
          | ':' :: r2 =>
            (match parseStep fuel PMode.value r2 with
             | none => none
             | some (v, r3) =>
               match skipWs r3 with
               | ',' :: r4 =>
                 (match parseStep fuel PMode.members r4 with
                  | some (Json.jobj ps, r5) =>
                    some (Json.jobj ((String.mk key, v) :: ps), r5)
                  | _ => none)
               | '\x7d' :: r4 => some (Json.jobj [(String.mk key, v)], r4)
               | _ => none)
          | _ => none)
     | _ => none)
  | Nat.succ fuel, PMode.elems, cs =>
    (match parseStep fuel PMode.value cs with
     | none => none
     | some (v, r1) =>
       match skipWs r1 with
       | ',' :: r2 =>
         (match parseStep fuel PMode.elems r2 with
          | some (Json.jarr es, r3) => some (Json.jarr (v :: es), r3)
          | _ => none)
       | ']' :: r2 => some (Json.jarr [v], r2)
       | _ => none)

/-- Models `JSON.parse`: read one value and require the rest of the input to be
whitespace; `none` models a thrown `SyntaxError`. -/
def jsonParse (s : String) : Option Json :=
  match parseStep (2 * s.length + 4) PMode.value s.data with
  | some (j, r) => if (skipWs r).isEmpty then some j else none
  | none => none

/-! ## Response handling of `postBinaryStreamObject` (src/index.js 207-236) -/

/-- How the `res.on('end')` handler ends the invocation: a `context.done`
call, or an exception escaping the handler (`JSON.parse` failure, or
`.toLowerCase()` on a truthy non-string status). -/
inductive EndOutcome where
  | done : Option String → EndOutcome
  | thrown : EndOutcome
  deriving DecidableEq, Repr

/-- The failure message of src/index.js line 232. -/
def restApiFailMsg : String :=
  "Fail to make REST api call to post the binary stream object."

/-- The condition of src/index.js line 224:
`responseJson && responseJson.response && responseJson.response.status &&
responseJson.response.status.toLowerCase() == 'success'`.
`Except.error` models the `TypeError` thrown by `.toLowerCase()` when the
truthy `status` is not a string. -/
def successCondition (j : Json) : Except Unit Bool :=
  if !jsTruthyJson j then Except.ok false
  else
    match getField j "response" with
    | none => Except.ok false
    | some r =>
      if !jsTruthyJson r then Except.ok false
      else
        match getField r "status" with
        | none => Except.ok false
        | some st =>
          if !jsTruthyJson st then Except.ok false
          else
            match st with
            | Json.jstr s => Except.ok (jsToLower s == "success")
            | _ => Except.error ()

/-- The `res.on('end')` handler (src/index.js 216-236): `isSuccessfull` is
set only when the HTTP status is 200, the accumulated body is truthy and the
parsed body passes `successCondition`; on success `context.done()` is
called, otherwise `context.done(errorMsg)`. -/
def onResponseEnd (statusCode : Nat) (responseBody : String) : EndOutcome :=
  if statusCode == 200 && jsTruthyStr responseBody then
    match jsonParse responseBody with
    | none => EndOutcome.thrown
    | some j =>
      match successCondition j with
      | Except.error _ => EndOutcome.thrown
      | Except.ok true => EndOutcome.done none
      | Except.ok false => EndOutcome.done (some restApiFailMsg)
  else EndOutcome.done (some restApiFailMsg)

/-- The `res.on('error')` handler (src/index.js 208-211): always a failure
completion. -/
def onResponseError (e : String) : EndOutcome :=
  EndOutcome.done (some ("Error while calling REST API: " ++ e))

/-- The nested `response.status` field of a parsed body. -/
def nestedStatus (j : Json) : Option Json :=
  match getField j "response" with
  | some r => getField r "status"
  | none => none

/-- Written from the spec's words for the refinement check of C4: the parsed
response body's nested `response.status` field equals `"success"`
case-insensitively. -/
def responseStatusSuccess (body : String) : Prop :=
  ∃ j s, jsonParse body = some j ∧ nestedStatus j = some (Json.jstr s) ∧
    jsToLower s = "success"

/-! ## Concrete fixtures used by witnesses and counterexamples -/

/-- An environment with all six required variables set. -/
def envAll : Env := ⟨some "cs", some "h", some "p", some "ci", some "u", some "r"⟩

/-- An environment with no variable set. -/
def envNone : Env := ⟨none, none, none, none, none, none⟩

/-- A sample configuration object. -/
def cfgSample : EnvConfig := ⟨"h", "p", "ci", "u", "r"⟩

/-- A sample event whose subject splits into exactly 7 segments. -/
def evSeven : EventGridEvent :=
  ⟨"/blobServices/default/containers/cont/blobs/f.txt", "https://x/f.txt", 5⟩

/-- A sample event whose subject splits into 3 segments. -/
def evShort : EventGridEvent := ⟨"/a/b", "https://x/b", 5⟩

/-- A sample headers object without ownership data. -/
def hdrPlain : Headers := ⟨"application/json", "8.1", "ci", "T1", "u", "r", none⟩

/-- A fetched result whose metadata holds an original filename and a key
that contains (but does not start with) `x-rdp`. -/
def rTwoKeys : BlobMetadataResult :=
  ⟨"n", [("originalfilename", "f.jpg"), ("my-x-rdp-note", "n1")]⟩

/-- A 200 response body whose nested status is `"Success"`. -/
def okBody : String := "\x7b\"response\":\x7b\"status\":\"Success\"\x7d\x7d"

/-- A 200 response body whose nested status is `"failed"`. -/
def failBody : String := "\x7b\"response\":\x7b\"status\":\"failed\"\x7d\x7d"

/-! ## Association-list lemmas -/

theorem lookupA_nil {α : Type} (k : String) :
    lookupA ([] : List (String × α)) k = none := rfl

theorem lookupA_cons {α : Type} (p : String × α) (t : List (String × α))
    (k : String) :
    lookupA (p :: t) k = if p.1 == k then some p.2 else lookupA t k := rfl

theorem lookupA_append_some {α : Type} {l1 : List (String × α)}
    (l2 : List (String × α)) {k : String} {v : α} (h : lookupA l1 k = some v) :
    lookupA (l1 ++ l2) k = some v := by
  induction l1 with
  | nil => simp [lookupA_nil] at h
  | cons p t ih =>
    rw [List.cons_append, lookupA_cons]
    rw [lookupA_cons] at h
    by_cases hp : (p.1 == k) = true
    · simpa [hp] using h
    · simp only [hp, if_false] at h ⊢
      exact ih h

theorem lookupA_append_none {α : Type} {l1 : List (String × α)}
    (l2 : List (String × α)) {k : String} (h : lookupA l1 k = none) :
    lookupA (l1 ++ l2) k = lookupA l2 k := by
  induction l1 with
  | nil => rfl
  | cons p t ih =>
    rw [List.cons_append, lookupA_cons]
    rw [lookupA_cons] at h
    by_cases hp : (p.1 == k) = true
    · simp [hp] at h
    · simp only [hp, if_false] at h ⊢
      exact ih h

theorem lookupA_eq_none_of_forall_ne {α : Type} {l : List (String × α)}
    {k : String} (h : ∀ p ∈ l, p.1 ≠ k) : lookupA l k = none := by
  induction l with
  | nil => rfl
  | cons p t ih =>
    rw [lookupA_cons]
    have hp : (p.1 == k) = false :=
      beq_eq_false_iff_ne.mpr (h p (List.mem_cons_self p t))
    simp only [hp, Bool.false_eq_true, if_false]
    exact ih (fun q hq => h q (List.mem_cons_of_mem p hq))

theorem any_key_eq_false_of_lookupA_none {α : Type} {l : List (String × α)}
    {k : String} (h : lookupA l k = none) : (l.any fun p => p.1 == k) = false := by
  induction l with
  | nil => rfl
  | cons p t ih =>
    rw [lookupA_cons] at h
    by_cases hp : (p.1 == k) = true
    · simp [hp] at h
    · simp only [hp, if_false] at h
      simp [List.any_cons, hp, ih h]

theorem lookupA_removeKey_ne {α : Type} (m : List (String × α)) (k k' : String)
    (h : k' ≠ k) : lookupA (removeKey m k) k' = lookupA m k' := by
  induction m with
  | nil => rfl
  | cons p t ih =>
    unfold removeKey at ih ⊢
    rw [List.filter_cons]
    by_cases hp : (p.1 == k) = true
    · simp only [hp, Bool.not_true, Bool.false_eq_true, if_false]
      rw [lookupA_cons]
      have hne : (p.1 == k') = false := by
        rw [beq_eq_false_iff_ne]
        rw [beq_iff_eq] at hp
        rw [hp]
        exact fun e => h e.symm
      simp [hne, ih]
    · have hp' : (p.1 == k) = false := by simpa using hp
      simp only [hp', Bool.not_false, if_true]
      rw [lookupA_cons, lookupA_cons]
      by_cases hk : (p.1 == k') = true
      · simp [hk]
      · simp [hk, ih]

theorem mem_removeKey_ne {α : Type} {m : List (String × α)} {k : String}
    {p : String × α} (h : p ∈ removeKey m k) : p.1 ≠ k := by
  unfold removeKey at h
  have := List.of_mem_filter h
  simpa [beq_eq_false_iff_ne] using this

/-! ## Lemmas about the property copy-through loop -/

theorem foldl_addProp_some {l : List (String × String)}
    {ps : List (String × JsVal)} {k : String} {x : JsVal}
    (h : lookupA ps k = some x) :
    lookupA (l.foldl addProp ps) k = some x := by
  induction l generalizing ps with
  | nil => exact h
  | cons p t ih =>
    rw [List.foldl_cons]
    apply ih
    unfold addProp
    split
    · exact lookupA_append_some _ h
    · exact h

theorem foldl_addProp_none_of_forall_ne {l : List (String × String)}
    {ps : List (String × JsVal)} {k : String}
    (h : lookupA ps k = none) (hl : ∀ p ∈ l, p.1 ≠ k) :
    lookupA (l.foldl addProp ps) k = none := by
  induction l generalizing ps with
  | nil => exact h
  | cons p t ih =>
    rw [List.foldl_cons]
    have hne : p.1 ≠ k := hl p (List.mem_cons_self p t)
    have hstep : lookupA (addProp ps p) k = none := by
      unfold addProp
      split
      · rw [lookupA_append_none _ h, lookupA_cons]
        simp [beq_eq_false_iff_ne.mpr hne, lookupA_nil]
      · exact h
    exact ih hstep (fun q hq => hl q (List.mem_cons_of_mem p hq))

theorem foldl_addProp_none_of_includes {l : List (String × String)}
    {ps : List (String × JsVal)} {k : String}
    (h : lookupA ps k = none) (hk : jsIncludes k "x-rdp" = true) :
    lookupA (l.foldl addProp ps) k = none := by
  induction l generalizing ps with
  | nil => exact h
  | cons p t ih =>
    rw [List.foldl_cons]
    have hstep : lookupA (addProp ps p) k = none := by
      unfold addProp
      split
      · next hcond =>
        have hpinc : jsIncludes p.1 "x-rdp" = false := by
          rcases Bool.and_eq_true _ _ |>.mp hcond with ⟨h1, _⟩
          simpa using h1
        have hne : p.1 ≠ k := fun e => by rw [e, hk] at hpinc; cases hpinc
        rw [lookupA_append_none _ h, lookupA_cons]
        simp [beq_eq_false_iff_ne.mpr hne, lookupA_nil]
      · exact h
    exact ih hstep

theorem foldl_addProp_mem {l : List (String × String)} {k v : String}
    (ps : List (String × JsVal))
    (hmem : (k, v) ∈ l) (hnd : (keysOf l).Nodup)
    (hinc : jsIncludes k "x-rdp" = false) (hps : lookupA ps k = none) :
    lookupA (l.foldl addProp ps) k = some (JsVal.s v) := by
  induction l generalizing ps with
  | nil => cases hmem
  | cons p t ih =>
    rw [List.foldl_cons]
    rcases List.mem_cons.mp hmem with heq | htl
    · subst heq
      have hcond : (!jsIncludes k "x-rdp" && !(ps.any fun q => q.1 == k)) = true := by
        rw [hinc, any_key_eq_false_of_lookupA_none hps]
        rfl
      have hstep : lookupA (addProp ps (k, v)) k = some (JsVal.s v) := by
        unfold addProp
        rw [if_pos hcond, lookupA_append_none _ hps, lookupA_cons]
        simp
      exact foldl_addProp_some hstep
    · have hkt : k ∈ keysOf t := by
        exact List.mem_map.mpr ⟨(k, v), htl, rfl⟩
      have hne : p.1 ≠ k := by
        intro e
        have : p.1 ∉ keysOf t := (List.nodup_cons.mp hnd).1
        rw [e] at this
        exact this hkt
      have hstep : lookupA (addProp ps p) k = none := by
        unfold addProp
        split
        · rw [lookupA_append_none _ hps, lookupA_cons]
          simp [beq_eq_false_iff_ne.mpr hne, lookupA_nil]
        · exact hps
      exact ih _ htl (List.nodup_cons.mp hnd).2 hstep

/-! ## Lemmas about `setKey` and the normalization loop -/

theorem any_key_eq_true_iff_mem_keysOf {α : Type} (m : List (String × α))
    (k : String) : (m.any fun p => p.1 == k) = true ↔ k ∈ keysOf m := by
  unfold keysOf
  rw [List.any_eq_true]
  constructor
  · rintro ⟨p, hp, he⟩
    exact List.mem_map.mpr ⟨p, hp, beq_iff_eq.mp he⟩
  · intro h
    rcases List.mem_map.mp h with ⟨p, hp, he⟩
    exact ⟨p, hp, beq_iff_eq.mpr he⟩

theorem keysOf_setKey_of_mem {α : Type} {m : List (String × α)} {k : String}
    (v : α) (h : k ∈ keysOf m) :
    keysOf (setKey m k v) = keysOf m := by
  unfold setKey
  rw [if_pos ((any_key_eq_true_iff_mem_keysOf m k).mpr h)]
  unfold keysOf
  rw [List.map_map]
  apply List.map_congr_left
  intro p _
  by_cases hp : (p.1 == k) = true
  · simp only [Function.comp_apply, hp, if_true]
    exact (beq_iff_eq.mp hp).symm
  · simp only [Function.comp_apply, hp]
    simp

theorem keysOf_setKey_of_not_mem {α : Type} {m : List (String × α)} {k : String}
    (v : α) (h : k ∉ keysOf m) :
    keysOf (setKey m k v) = keysOf m ++ [k] := by
  unfold setKey
  have ha : (m.any fun p => p.1 == k) = false := by
    rcases Bool.eq_false_or_eq_true (m.any fun p => p.1 == k) with ht | hf
    · exact absurd ((any_key_eq_true_iff_mem_keysOf m k).mp ht) h
    · exact hf
  rw [ha]
  simp only [Bool.false_eq_true, if_false]
  unfold keysOf
  rw [List.map_append]
  rfl

theorem mem_keysOf_setKey_self {α : Type} (m : List (String × α)) (k : String)
    (v : α) : k ∈ keysOf (setKey m k v) := by
  by_cases h : k ∈ keysOf m
  · rw [keysOf_setKey_of_mem v h]; exact h
  · rw [keysOf_setKey_of_not_mem v h]
    exact List.mem_append.mpr (Or.inr (List.mem_singleton.mpr rfl))

theorem mem_keysOf_setKey_of_mem {α : Type} {m : List (String × α)} {k' : String}
    (k : String) (v : α) (h : k' ∈ keysOf m) : k' ∈ keysOf (setKey m k v) := by
  by_cases hk : k ∈ keysOf m
  · rw [keysOf_setKey_of_mem v hk]; exact h
  · rw [keysOf_setKey_of_not_mem v hk]
    exact List.mem_append.mpr (Or.inl h)

theorem length_setKey_of_mem {α : Type} {m : List (String × α)} {k : String}
    (v : α) (h : k ∈ keysOf m) : (setKey m k v).length = m.length := by
  unfold setKey
  rw [if_pos ((any_key_eq_true_iff_mem_keysOf m k).mpr h)]
  exact List.length_map _ _

theorem length_setKey_le {α : Type} (m : List (String × α)) (k : String)
    (v : α) : (setKey m k v).length ≤ m.length + 1 := by
  unfold setKey
  split
  · rw [List.length_map]; omega
  · rw [List.length_append]; simp

theorem length_foldl_normStep_le :
    ∀ (l acc : List (String × String)),
      (l.foldl normStep acc).length ≤ acc.length + l.length
  | [], acc => by simp
  | p :: t, acc => by
    rw [List.foldl_cons]
    have h1 := length_foldl_normStep_le t (normStep acc p)
    have h2 : (normStep acc p).length ≤ acc.length + 1 :=
      length_setKey_le acc (normKey p.1) p.2
    simp only [List.length_cons]
    omega

theorem mem_keysOf_foldl_normStep {k : String} :
    ∀ (l acc : List (String × String)), k ∈ keysOf acc →
      k ∈ keysOf (l.foldl normStep acc)
  | [], _, h => h
  | p :: t, acc, h => by
    rw [List.foldl_cons]
    exact mem_keysOf_foldl_normStep t _ (mem_keysOf_setKey_of_mem _ _ h)

theorem length_foldl_normStep_lt {b : String × String} :
    ∀ (l acc : List (String × String)), b ∈ l → normKey b.1 ∈ keysOf acc →
      (l.foldl normStep acc).length < acc.length + l.length
  | [], _, hb, _ => absurd hb (List.not_mem_nil b)
  | p :: t, acc, hb, hk => by
    rw [List.foldl_cons]
    rcases List.mem_cons.mp hb with heq | htl
    · subst heq
      have h1 : (normStep acc b).length = acc.length :=
        length_setKey_of_mem _ hk
      have h2 := length_foldl_normStep_le t (normStep acc b)
      simp only [List.length_cons]
      omega
    · have hk' : normKey b.1 ∈ keysOf (normStep acc p) :=
        mem_keysOf_setKey_of_mem _ _ hk
      have h1 := length_foldl_normStep_lt t (normStep acc p) htl hk'
      have h2 : (normStep acc p).length ≤ acc.length + 1 :=
        length_setKey_le acc (normKey p.1) p.2
      simp only [List.length_cons]
      omega

theorem lookupA_map_overwrite_ne {α : Type} {k k' : String} (v : α)
    (h : k' ≠ k) :
    ∀ m : List (String × α),
      lookupA (m.map fun p => if p.1 == k then (k, v) else p) k' = lookupA m k'
  | [] => rfl
  | p :: t => by
    rw [List.map_cons, lookupA_cons, lookupA_cons]
    by_cases hp : (p.1 == k) = true
    · simp only [hp, if_true]
      have h1 : (k == k') = false := beq_eq_false_iff_ne.mpr (fun e => h e.symm)
      have h2 : (p.1 == k') = false := by
        rw [beq_iff_eq] at hp
        rw [hp]
        exact h1
      simp only [h1, h2, Bool.false_eq_true, if_false]
      exact lookupA_map_overwrite_ne v h t
    · simp only [hp, Bool.false_eq_true, if_false]
      by_cases hk : (p.1 == k') = true
      · simp [hk]
      · simp only [hk, Bool.false_eq_true, if_false]
        exact lookupA_map_overwrite_ne v h t

theorem lookupA_map_overwrite_self {α : Type} {k : String} (v : α) :
    ∀ m : List (String × α), (m.any fun p => p.1 == k) = true →
      lookupA (m.map fun p => if p.1 == k then (k, v) else p) k = some v
  | [], h => by cases h
  | p :: t, h => by
    rw [List.map_cons, lookupA_cons]
    by_cases hp : (p.1 == k) = true
    · simp [hp]
    · simp only [hp, Bool.false_eq_true, if_false]
      rw [List.any_cons] at h
      simp only [hp, Bool.false_or] at h
      exact lookupA_map_overwrite_self v t h

theorem lookupA_setKey {α : Type} (m : List (String × α)) (k : String) (v : α)
    (k' : String) :
    lookupA (setKey m k v) k' = if k' = k then some v else lookupA m k' := by
  unfold setKey
  by_cases ha : (m.any fun p => p.1 == k) = true
  · rw [if_pos ha]
    by_cases he : k' = k
    · subst he
      rw [if_pos rfl]
      exact lookupA_map_overwrite_self v m ha
    · rw [if_neg he]
      exact lookupA_map_overwrite_ne v he m
  · have ha' : (m.any fun p => p.1 == k) = false := Bool.eq_false_iff.mpr ha
    rw [ha']
    simp only [Bool.false_eq_true, if_false]
    by_cases he : k' = k
    · subst he
      have hnone : lookupA m k' = none := by
        rcases hx : lookupA m k' with _ | w
        · rfl
        · exfalso
          apply ha
          rcases (by
            clear ha ha'
            induction m with
            | nil => simp [lookupA_nil] at hx
            | cons p t ih =>
              rw [lookupA_cons] at hx
              by_cases hp : (p.1 == k') = true
              · exact ⟨p, List.mem_cons_self p t, hp⟩
              · simp only [hp, Bool.false_eq_true, if_false] at hx
                rcases ih hx with ⟨q, hq, hqe⟩
                exact ⟨q, List.mem_cons_of_mem p hq, hqe⟩ :
            ∃ p ∈ m, (p.1 == k') = true) with ⟨q, hq, hqe⟩
          exact List.any_eq_true.mpr ⟨q, hq, hqe⟩
      rw [if_pos rfl, lookupA_append_none _ hnone, lookupA_cons]
      simp
    · rw [if_neg he]
      rcases hx : lookupA m k' with _ | w
      · rw [lookupA_append_none _ hx, lookupA_cons]
        have : (k == k') = false := beq_eq_false_iff_ne.mpr (fun e => he e.symm)
        simp [this, lookupA_nil]
      · exact lookupA_append_some _ hx

theorem keysOf_setKey_nodup {α : Type} {m : List (String × α)} (k : String)
    (v : α) (h : (keysOf m).Nodup) : (keysOf (setKey m k v)).Nodup := by
  by_cases hk : k ∈ keysOf m
  · rw [keysOf_setKey_of_mem v hk]; exact h
  · rw [keysOf_setKey_of_not_mem v hk]
    rw [List.nodup_append]
    exact ⟨h, List.nodup_singleton k, by simpa using hk⟩

theorem keysOf_foldl_normStep_nodup :
    ∀ (l acc : List (String × String)), (keysOf acc).Nodup →
      (keysOf (l.foldl normStep acc)).Nodup
  | [], _, h => h
  | p :: t, acc, h => by
    rw [List.foldl_cons]
    exact keysOf_foldl_normStep_nodup t _ (keysOf_setKey_nodup _ _ h)

theorem keysOf_foldl_normStep_origin {k : String} :
    ∀ (l acc : List (String × String)), k ∈ keysOf (l.foldl normStep acc) →
      k ∈ keysOf acc ∨ ∃ p, p ∈ l ∧ normKey p.1 = k
  | [], _, h => Or.inl h
  | p :: t, acc, h => by
    rw [List.foldl_cons] at h
    rcases keysOf_foldl_normStep_origin t _ h with hacc | ⟨q, hq, hqe⟩
    · by_cases hm : k ∈ keysOf acc
      · exact Or.inl hm
      · by_cases he : normKey p.1 = k
        · exact Or.inr ⟨p, List.mem_cons_self p t, he⟩
        · exfalso
          unfold normStep at hacc
          by_cases hpk : normKey p.1 ∈ keysOf acc
          · rw [keysOf_setKey_of_mem _ hpk] at hacc
            exact hm hacc
          · rw [keysOf_setKey_of_not_mem _ hpk] at hacc
            rcases List.mem_append.mp hacc with h1 | h1
            · exact hm h1
            · exact he (List.mem_singleton.mp h1).symm
    · exact Or.inr ⟨q, List.mem_cons_of_mem p hq, hqe⟩

theorem lookupA_foldl_normStep_origin {k : String} {v : String} :
    ∀ (l acc : List (String × String)),
      lookupA (l.foldl normStep acc) k = some v →
      lookupA acc k = some v ∨ ∃ p, p ∈ l ∧ normKey p.1 = k ∧ p.2 = v
  | [], _, h => Or.inl h
  | p :: t, acc, h => by
    rw [List.foldl_cons] at h
    rcases lookupA_foldl_normStep_origin t _ h with hacc | ⟨q, hq, hqe, hqv⟩
    · unfold normStep at hacc
      rw [lookupA_setKey] at hacc
      by_cases he : k = normKey p.1
      · rw [if_pos he] at hacc
        exact Or.inr ⟨p, List.mem_cons_self p t, he.symm, Option.some_inj.mp hacc⟩
      · rw [if_neg he] at hacc
        exact Or.inl hacc
    · exact Or.inr ⟨q, List.mem_cons_of_mem p hq, hqe, hqv⟩

theorem lookupA_isSome_of_mem_keysOf {α : Type} {m : List (String × α)}
    {k : String} (h : k ∈ keysOf m) : ∃ v, lookupA m k = some v := by
  induction m with
  | nil => simp [keysOf] at h
  | cons p t ih =>
    rw [lookupA_cons]
    by_cases hp : (p.1 == k) = true
    · exact ⟨p.2, by simp [hp]⟩
    · simp only [hp, Bool.false_eq_true, if_false]
      apply ih
      unfold keysOf at h ⊢
      rcases List.mem_map.mp h with ⟨q, hq, hqe⟩
      rcases List.mem_cons.mp hq with he | htl
      · exfalso
        apply absurd hp
        simp only [Bool.not_eq_true, Bool.not_eq_false]
        rw [beq_iff_eq, ← hqe, he]
      · exact List.mem_map.mpr ⟨q, htl, hqe⟩

/-! ## Lemmas about key normalization -/

theorem toNat_ofNat_of_lt {n : Nat} (h : n < 55296) :
    (Char.ofNat n).toNat = n := by
  have hv : n.isValidChar := Or.inl h
  rw [Char.ofNat, dif_pos hv]
  rfl

theorem jsToLowerChar_idem (c : Char) :
    jsToLowerChar (jsToLowerChar c) = jsToLowerChar c := by
  unfold jsToLowerChar
  by_cases h : 65 ≤ c.toNat ∧ c.toNat ≤ 90
  · rw [if_pos h]
    have ht : (Char.ofNat (c.toNat + 32)).toNat = c.toNat + 32 :=
      toNat_ofNat_of_lt (by omega)
    rw [if_neg (by rw [ht]; omega)]
  · rw [if_neg h, if_neg h]

theorem jsToLower_idem (s : String) : jsToLower (jsToLower s) = jsToLower s := by
  show String.mk ((String.mk (s.data.map jsToLowerChar)).data.map jsToLowerChar)
      = String.mk (s.data.map jsToLowerChar)
  rw [show (String.mk (s.data.map jsToLowerChar)).data = s.data.map jsToLowerChar from rfl]
  rw [List.map_map]
  congr 1
  apply List.map_congr_left
  intro c _
  exact jsToLowerChar_idem c

theorem replaceFirst_id_of_not_hasSubstr {pat : List Char} (rep : List Char) :
    ∀ l : List Char, hasSubstr pat l = false → replaceFirst pat rep l = l
  | [], h => by
    unfold hasSubstr at h
    unfold replaceFirst
    rw [h]
    simp
  | c :: t, h => by
    unfold hasSubstr at h
    rcases Bool.or_eq_false_iff.mp h with ⟨h1, h2⟩
    unfold replaceFirst
    rw [h1]
    simp only [Bool.false_eq_true, if_false]
    rw [replaceFirst_id_of_not_hasSubstr rep t h2]

theorem normKey_normKey (j : String)
    (h : hasSubstr rdpEscapePre.data (normKey j).data = false) :
    normKey (normKey j) = normKey j := by
  have h2 : jsToLower (normKey j) = normKey j :=
    jsToLower_idem (String.mk (replaceFirst rdpEscapePre.data rdpCanonPre.data j.data))
  calc normKey (normKey j)
      = jsToLower (String.mk (replaceFirst rdpEscapePre.data rdpCanonPre.data
          (normKey j).data)) := rfl
    _ = jsToLower (String.mk (normKey j).data) := by
          rw [replaceFirst_id_of_not_hasSubstr _ _ h]
    _ = jsToLower (normKey j) := rfl
    _ = normKey j := h2

theorem foldl_normStep_fixed :
    ∀ (l acc : List (String × String)),
      (∀ k ∈ keysOf l, normKey k = k) → (keysOf l).Nodup →
      (∀ k ∈ keysOf l, k ∉ keysOf acc) →
      l.foldl normStep acc = acc ++ l
  | [], acc, _, _, _ => by simp
  | (k, v) :: t, acc, hfix, hnd, hdisj => by
    rw [List.foldl_cons]
    have hkmem : k ∈ keysOf ((k, v) :: t) := List.mem_cons_self k (keysOf t)
    have hk : normKey k = k := hfix k hkmem
    have hnotin : k ∉ keysOf acc := hdisj k hkmem
    have hstep : normStep acc (k, v) = acc ++ [(k, v)] := by
      show setKey acc (normKey (k, v).1) (k, v).2 = acc ++ [(k, v)]
      rw [show normKey (k, v).1 = k from hk]
      unfold setKey
      have ha : (acc.any fun p => p.1 == k) = false := by
        rcases Bool.eq_false_or_eq_true (acc.any fun p => p.1 == k) with ht | hf
        · exact absurd ((any_key_eq_true_iff_mem_keysOf acc k).mp ht) hnotin
        · exact hf
      rw [ha]
      simp
    rw [hstep]
    have hknotint : k ∉ keysOf t := (List.nodup_cons.mp hnd).1
    have hres := foldl_normStep_fixed t (acc ++ [(k, v)])
      (fun k' hk' => hfix k' (List.mem_cons_of_mem k hk'))
      (List.nodup_cons.mp hnd).2
      (by
        intro k' hk'
        have hne : k' ≠ k := fun e => hknotint (e ▸ hk')
        intro hmem
        have : keysOf (acc ++ [(k, v)]) = keysOf acc ++ [k] := by
          unfold keysOf
          rw [List.map_append]
          rfl
        rw [this] at hmem
        rcases List.mem_append.mp hmem with h1 | h1
        · exact hdisj k' (List.mem_cons_of_mem k hk') h1
        · exact hne (List.mem_singleton.mp h1))
    rw [hres, List.append_assoc]
    rfl

/-! ## Claim C1 -/

/-- Claim C1: for every event whose subject string, split on `'/'`, does not
yield exactly 7 segments, the handler performs no metadata fetch and no HTTP
call, and the invocation completes without error (a single `context.done()`
with no argument, and nothing logged as an error). -/
theorem handler_skips_non_seven_segment_subject (env : Env) (ev : EventGridEvent)
    (inv : String) (fetch : FetchOutcome)
    (h : (jsSplitSlash ev.subject).length ≠ 7) :
    (handleEvent env ev inv fetch).fetchAttempted = false ∧
    (handleEvent env ev inv fetch).postAttempted = false ∧
    (handleEvent env ev inv fetch).errorLogs = [] ∧
    (handleEvent env ev inv fetch).completions = [none] := by
  refine ⟨?_, ?_, ?_, ?_⟩ <;> simp [handleEvent, h]

/-- Witness for C1 at a concrete 3-segment subject. -/
theorem handler_skips_non_seven_segment_subject_witness :
    (jsSplitSlash evShort.subject).length ≠ 7 ∧
    ((handleEvent envAll evShort "inv" FetchOutcome.err).fetchAttempted = false ∧
     (handleEvent envAll evShort "inv" FetchOutcome.err).postAttempted = false ∧
     (handleEvent envAll evShort "inv" FetchOutcome.err).errorLogs = [] ∧
     (handleEvent envAll evShort "inv" FetchOutcome.err).completions = [none]) :=
  ⟨by decide,
   handler_skips_non_seven_segment_subject envAll evShort "inv" FetchOutcome.err
     (by decide)⟩

/-! ## Claim C2 -/

/-- Claim C2: for every fetched metadata result whose normalized metadata
lacks the key `x-rdp-tenantid`, the metadata callback makes no HTTP call and
issues no `context.done` call of its own — in particular no error
completion, so the invocation completes via the handler's own
`context.done()` (line 73) — and the condition is only logged via
`context.log.error`. -/
theorem tenantid_missing_no_post (cfg : EnvConfig) (ev : EventGridEvent)
    (inv : String) (subj : List String) (r : BlobMetadataResult)
    (h : lookupA (getBlobMetadata r) "x-rdp-tenantid" = none) :
    (onMetadataFetched cfg ev inv subj (FetchOutcome.ok (some r))).postAttempted = false ∧
    (onMetadataFetched cfg ev inv subj (FetchOutcome.ok (some r))).posted = none ∧
    (onMetadataFetched cfg ev inv subj (FetchOutcome.ok (some r))).completions = [] ∧
    (onMetadataFetched cfg ev inv subj (FetchOutcome.ok (some r))).errorLogs =
      ["TenantId is not present in asset metadata"] := by
  have h' : jsTruthy (lookupA (getBlobMetadata r) "x-rdp-tenantid") = false := by
    rw [h]
    rfl
  refine ⟨?_, ?_, ?_, ?_⟩ <;> simp [onMetadataFetched, h']

/-- Witness for C2 at a concrete metadata result without a tenant id. -/
theorem tenantid_missing_no_post_witness :
    lookupA (getBlobMetadata ⟨"f.txt", [("color", "red")]⟩) "x-rdp-tenantid" = none ∧
    ((onMetadataFetched cfgSample evSeven "inv" [] (FetchOutcome.ok (some ⟨"f.txt", [("color", "red")]⟩))).postAttempted = false ∧
     (onMetadataFetched cfgSample evSeven "inv" [] (FetchOutcome.ok (some ⟨"f.txt", [("color", "red")]⟩))).posted = none ∧
     (onMetadataFetched cfgSample evSeven "inv" [] (FetchOutcome.ok (some ⟨"f.txt", [("color", "red")]⟩))).completions = [] ∧
     (onMetadataFetched cfgSample evSeven "inv" [] (FetchOutcome.ok (some ⟨"f.txt", [("color", "red")]⟩))).errorLogs =
       ["TenantId is not present in asset metadata"]) :=
  ⟨by decide,
   tenantid_missing_no_post cfgSample evSeven "inv" [] ⟨"f.txt", [("color", "red")]⟩
     (by decide)⟩

/-! ## Claim C6 -/

/-- Counterexample for C6: on a fetch failure the callback calls
`context.done()` with NO argument — its only completion is `none`, a
successful completion — so the error is not surfaced to the invoking
platform as an invocation failure, contrary to the claim. -/
theorem fetch_error_completes_without_error_cex :
    (onMetadataFetched cfgSample evSeven "inv" [] FetchOutcome.err).completions = [none] ∧
    (onMetadataFetched cfgSample evSeven "inv" [] FetchOutcome.err).postAttempted = false ∧
    (onMetadataFetched cfgSample evSeven "inv" [] FetchOutcome.err).posted = none :=
  ⟨rfl, rfl, rfl⟩

/-- Claim C6 as amended: when the metadata fetch fails, the invocation is
terminal with no further action and no retry — the callback only logs
(`"Error fetching metadata"` and the mutated `subjectVal`) and calls
`context.done()` with no error argument, so the failure is NOT surfaced as
an invocation failure. -/
theorem fetch_error_terminal_no_retry (cfg : EnvConfig) (ev : EventGridEvent)
    (inv : String) (subj : List String) :
    onMetadataFetched cfg ev inv subj FetchOutcome.err =
      { postAttempted := false
        posted := none
        logs := ["Error fetching metadata",
                 "subjectVal: " ++ String.intercalate "," subj]
        errorLogs := []
        completions := [none] } := rfl

/-! ## Claim C5 -/

/-- Any of the six required-variable checks failing makes
`getEnvironmentConfiguration` log exactly one error, complete with that
error and return `null`. -/
theorem envcheck_missing (env : Env)
    (hmiss : jsTruthy env.StorageConStr = false ∨
      jsTruthy env.ENV_RDP_HOST = false ∨
      jsTruthy env.ENV_RDP_PORT = false ∨
      jsTruthy env.ENV_CLIENT_ID = false ∨
      jsTruthy env.ENV_DEFAULT_USER_ID = false ∨
      jsTruthy env.ENV_DEFAULT_USER_ROLES = false) :
    ∃ m, getEnvironmentConfiguration env = ⟨none, [m], [some m]⟩ := by
  unfold getEnvironmentConfiguration
  rcases Bool.eq_false_or_eq_true (jsTruthy env.StorageConStr) with h1 | h1
  · rw [h1]
    simp only [Bool.not_true, Bool.false_eq_true, if_false]
    rcases Bool.eq_false_or_eq_true (jsTruthy env.ENV_RDP_HOST) with h2 | h2
    · rw [h2]
      simp only [Bool.not_true, Bool.false_eq_true, if_false]
      rcases Bool.eq_false_or_eq_true (jsTruthy env.ENV_RDP_PORT) with h3 | h3
      · rw [h3]
        simp only [Bool.not_true, Bool.false_eq_true, if_false]
        rcases Bool.eq_false_or_eq_true (jsTruthy env.ENV_CLIENT_ID) with h4 | h4
        · rw [h4]
          simp only [Bool.not_true, Bool.false_eq_true, if_false]
          rcases Bool.eq_false_or_eq_true (jsTruthy env.ENV_DEFAULT_USER_ID) with h5 | h5
          · rw [h5]
            simp only [Bool.not_true, Bool.false_eq_true, if_false]
            rcases Bool.eq_false_or_eq_true (jsTruthy env.ENV_DEFAULT_USER_ROLES) with h6 | h6
            · simp [h1, h2, h3, h4, h5, h6] at hmiss
            · exact ⟨_, by rw [h6]; rfl⟩
          · exact ⟨_, by rw [h5]; rfl⟩
        · exact ⟨_, by rw [h4]; rfl⟩
      · exact ⟨_, by rw [h3]; rfl⟩
    · exact ⟨_, by rw [h2]; rfl⟩
  · exact ⟨_, by rw [h1]; rfl⟩

/-- Counterexample for C5: with every required environment variable unset
but a subject of only 3 segments, the invocation neither logs an error nor
aborts — it completes successfully with `context.done()` — because the
environment is only checked inside the 7-segment branch.  This falsifies
"for every invocation in which any required environment variable is unset,
the invocation aborts with a logged error". -/
theorem env_missing_short_subject_cex :
    jsTruthy envNone.ENV_RDP_HOST = false ∧
    (handleEvent envNone evShort "inv" FetchOutcome.err).errorLogs = [] ∧
    (handleEvent envNone evShort "inv" FetchOutcome.err).completions = [none] :=
  ⟨rfl, rfl, rfl⟩

/-- Claim C5 as amended: for every invocation whose subject yields exactly
7 segments and in which any required environment variable is unset (or
empty), the invocation aborts with a logged error — the error completion
comes first — before any network call (metadata fetch or HTTP POST) is
attempted. -/
theorem env_missing_aborts_with_seven_segments (env : Env) (ev : EventGridEvent)
    (inv : String) (f : FetchOutcome)
    (hlen : (jsSplitSlash ev.subject).length = 7)
    (hmiss : jsTruthy env.StorageConStr = false ∨
      jsTruthy env.ENV_RDP_HOST = false ∨
      jsTruthy env.ENV_RDP_PORT = false ∨
      jsTruthy env.ENV_CLIENT_ID = false ∨
      jsTruthy env.ENV_DEFAULT_USER_ID = false ∨
      jsTruthy env.ENV_DEFAULT_USER_ROLES = false) :
    (handleEvent env ev inv f).fetchAttempted = false ∧
    (handleEvent env ev inv f).postAttempted = false ∧
    ∃ m, (handleEvent env ev inv f).errorLogs = [m] ∧
      (handleEvent env ev inv f).completions = [some m, none] := by
  obtain ⟨m, hm⟩ := envcheck_missing env hmiss
  refine ⟨?_, ?_, m, ?_, ?_⟩ <;> simp [handleEvent, hlen, hm]

/-- Witness for C5 (amended) at a concrete 7-segment subject with all
variables unset. -/
theorem env_missing_aborts_with_seven_segments_witness :
    (jsSplitSlash evSeven.subject).length = 7 ∧
    ((handleEvent envNone evSeven "inv" FetchOutcome.err).fetchAttempted = false ∧
     (handleEvent envNone evSeven "inv" FetchOutcome.err).postAttempted = false ∧
     ∃ m, (handleEvent envNone evSeven "inv" FetchOutcome.err).errorLogs = [m] ∧
       (handleEvent envNone evSeven "inv" FetchOutcome.err).completions = [some m, none]) :=
  ⟨by decide,
   env_missing_aborts_with_seven_segments envNone evSeven "inv" FetchOutcome.err
     (by decide) (Or.inl (by decide))⟩

/-! ## Lemmas about the builder's metadata and initial properties -/

theorem lookupA_remainingMetadata_ne (m : List (String × String)) (k : String)
    (h : k ≠ "originalfilename") :
    lookupA (remainingMetadata m) k = lookupA m k := by
  unfold remainingMetadata
  split
  · exact lookupA_removeKey_ne m "originalfilename" k h
  · rfl

theorem keysOf_remainingMetadata_nodup {m : List (String × String)}
    (h : (keysOf m).Nodup) : (keysOf (remainingMetadata m)).Nodup := by
  unfold remainingMetadata
  split
  · exact h.sublist (List.Sublist.map Prod.fst (List.filter_sublist m))
  · exact h

theorem keysOf_initialProps_sub (bk fn : String) (cl : Nat) (hs : Headers) :
    ∀ k ∈ keysOf (initialProps bk fn cl hs),
      k ∈ (["objectKey", "originalFileName", "fullObjectPath", "contentSize",
            "user", "role", "ownershipData"] : List String) := by
  intro k hk
  unfold initialProps keysOf at hk
  revert hk
  split
  · intro hk
    simp at hk
    rcases hk with h | h | h | h | h | h | h <;> simp [h]
  · intro hk
    simp at hk
    rcases hk with h | h | h | h | h | h <;> simp [h]

theorem lookupA_initialProps_none (bk fn : String) (cl : Nat) (hs : Headers)
    {k : String}
    (hbase : k ∉ (["objectKey", "originalFileName", "fullObjectPath",
      "contentSize", "user", "role", "ownershipData"] : List String)) :
    lookupA (initialProps bk fn cl hs) k = none := by
  apply lookupA_eq_none_of_forall_ne
  intro p hp e
  apply hbase
  rw [← e]
  exact keysOf_initialProps_sub bk fn cl hs p.1 (List.mem_map.mpr ⟨p, hp, rfl⟩)

theorem jsIncludes_of_startsWith (k : String)
    (h : jsStartsWith k "x-rdp-" = true) : jsIncludes k "x-rdp" = true := by
  unfold jsStartsWith at h
  unfold jsIncludes
  have hstep : ("x-rdp" : String).data.isPrefixOf ("x-rdp-" : String).data = true := by
    decide
  rw [List.isPrefixOf_iff_prefix] at h hstep
  have h5 : ("x-rdp" : String).data.isPrefixOf k.data = true := by
    rw [List.isPrefixOf_iff_prefix]
    exact hstep.trans h
  cases hk : k.data with
  | nil =>
    rw [hk] at h5
    simp [List.isPrefixOf] at h5
  | cons c t =>
    rw [hk] at h5
    unfold hasSubstr
    rw [h5]
    rfl

/-! ## Claim C3 -/

/-- Counterexample for C3: a metadata object holding the literal key
`TASK_ID_METADATA_PROPERTY` with the empty-string value.  The claim says
"if a key literally named `TASK_ID_METADATA_PROPERTY` is present, its value
is used", but the source guards the lookup with JavaScript truthiness, so
the empty value is ignored and the invocation id is used instead. -/
theorem taskid_literal_empty_value_cex :
    lookupA ([("TASK_ID_METADATA_PROPERTY", ""), ("x-rdp-taskid", "T-9")] :
        List (String × String)) "TASK_ID_METADATA_PROPERTY" = some "" ∧
    (buildBinaryStreamObject "inv-1" evSeven
        ⟨"f.txt", [("TASK_ID_METADATA_PROPERTY", ""), ("x-rdp-taskid", "T-9")]⟩
        hdrPlain).taskIdValue = "inv-1" ∧
    (buildBinaryStreamObject "inv-1" evSeven
        ⟨"f.txt", [("TASK_ID_METADATA_PROPERTY", ""), ("x-rdp-taskid", "T-9")]⟩
        hdrPlain).taskIdValue ≠ "" := by
  refine ⟨by decide, by decide, by decide⟩

/-- Claim C3 as amended: the task id comes from a metadata lookup of the key
literally spelled `TASK_ID_METADATA_PROPERTY`, not of that constant's string
value `x-rdp-taskid`: when the metadata contains `x-rdp-taskid` but no key
literally named `TASK_ID_METADATA_PROPERTY`, the descriptor's task id is the
invocation id; when a key literally named `TASK_ID_METADATA_PROPERTY` is
present with a non-empty (truthy) value, that value is used (with an empty
value the invocation id is used, per JavaScript truthiness). -/
theorem taskid_literal_lookup (inv : String) (ev : EventGridEvent)
    (r : BlobMetadataResult) (hs : Headers) :
    ((∃ w, lookupA r.metadata "x-rdp-taskid" = some w) →
      lookupA r.metadata "TASK_ID_METADATA_PROPERTY" = none →
      (buildBinaryStreamObject inv ev r hs).taskIdValue = inv) ∧
    (∀ v, lookupA r.metadata "TASK_ID_METADATA_PROPERTY" = some v → v ≠ "" →
      (buildBinaryStreamObject inv ev r hs).taskIdValue = v) := by
  have hne : ("TASK_ID_METADATA_PROPERTY" : String) ≠ "originalfilename" := by decide
  constructor
  · rintro ⟨w, _⟩ hnone
    have hrem : lookupA (remainingMetadata r.metadata) "TASK_ID_METADATA_PROPERTY" = none := by
      rw [lookupA_remainingMetadata_ne _ _ hne]
      exact hnone
    simp [buildBinaryStreamObject, hrem, jsTruthy]
  · intro v hv hvne
    have hrem : lookupA (remainingMetadata r.metadata) "TASK_ID_METADATA_PROPERTY" = some v := by
      rw [lookupA_remainingMetadata_ne _ _ hne]
      exact hv
    have htr : jsTruthy (some v) = true := by
      show (!v.isEmpty) = true
      cases hb : v.isEmpty
      · rfl
      · exact absurd ((String.isEmpty_iff v).mp hb) hvne
    simp [buildBinaryStreamObject, hrem, htr]

/-- Witness for C3 (amended), exercising both conjuncts: an object with
`x-rdp-taskid` only yields the invocation id; an object with the literal
key and a non-empty value yields that value. -/
theorem taskid_literal_lookup_witness :
    (buildBinaryStreamObject "inv-1" evSeven ⟨"f.txt", [("x-rdp-taskid", "T-9")]⟩
      hdrPlain).taskIdValue = "inv-1" ∧
    (buildBinaryStreamObject "inv-1" evSeven
      ⟨"f.txt", [("TASK_ID_METADATA_PROPERTY", "T-7")]⟩ hdrPlain).taskIdValue = "T-7" :=
  ⟨(taskid_literal_lookup "inv-1" evSeven ⟨"f.txt", [("x-rdp-taskid", "T-9")]⟩
      hdrPlain).1 ⟨"T-9", by decide⟩ (by decide),
   (taskid_literal_lookup "inv-1" evSeven
      ⟨"f.txt", [("TASK_ID_METADATA_PROPERTY", "T-7")]⟩ hdrPlain).2 "T-7"
      (by decide) (by decide)⟩

/-! ## Claim C9 -/

theorem lookupA_initialProps_origName (bk fn : String) (cl : Nat) (hs : Headers) :
    lookupA (initialProps bk fn cl hs) "originalFileName" = some (JsVal.s fn) := by
  unfold initialProps
  split
  · exact lookupA_append_some _ rfl
  · rfl

/-- Claim C9: for every metadata object containing
`binarystreamobjectid = "B1"` and `originalfilename = "f.jpg"`, the built
descriptor has `binaryStreamObject.id = "B1"` and
`properties.originalFileName = "f.jpg"`, and the key `originalfilename`
does not additionally appear in the descriptor's properties (it is deleted
from the metadata before the copy-through loop). -/
theorem descriptor_fields_from_metadata (inv : String) (ev : EventGridEvent)
    (r : BlobMetadataResult) (hs : Headers)
    (hb : lookupA r.metadata "binarystreamobjectid" = some "B1")
    (ho : lookupA r.metadata "originalfilename" = some "f.jpg") :
    (buildBinaryStreamObject inv ev r hs).id = "B1" ∧
    lookupA (buildBinaryStreamObject inv ev r hs).properties "originalFileName" =
      some (JsVal.s "f.jpg") ∧
    lookupA (buildBinaryStreamObject inv ev r hs).properties "originalfilename" =
      none := by
  have htrB : jsTruthy (some ("B1" : String)) = true := by decide
  have htrF : jsTruthy (some ("f.jpg" : String)) = true := by decide
  have hprops : (buildBinaryStreamObject inv ev r hs).properties =
      (remainingMetadata r.metadata).foldl addProp
        (initialProps r.name "f.jpg" ev.dataContentLength hs) := by
    simp [buildBinaryStreamObject, ho, htrF]
  refine ⟨?_, ?_, ?_⟩
  · simp [buildBinaryStreamObject, hb, htrB]
  · rw [hprops]
    exact foldl_addProp_some (lookupA_initialProps_origName _ _ _ _)
  · rw [hprops]
    apply foldl_addProp_none_of_forall_ne (lookupA_initialProps_none _ _ _ _ (by decide))
    intro p hp
    have hrem : remainingMetadata r.metadata = removeKey r.metadata "originalfilename" := by
      unfold remainingMetadata
      rw [ho, htrF]
      simp
    rw [hrem] at hp
    exact mem_removeKey_ne hp

/-- Witness for C9 at a concrete metadata object. -/
theorem descriptor_fields_from_metadata_witness :
    (buildBinaryStreamObject "inv" evSeven
      ⟨"d/f.tiff", [("binarystreamobjectid", "B1"), ("originalfilename", "f.jpg")]⟩
      hdrPlain).id = "B1" ∧
    lookupA (buildBinaryStreamObject "inv" evSeven
      ⟨"d/f.tiff", [("binarystreamobjectid", "B1"), ("originalfilename", "f.jpg")]⟩
      hdrPlain).properties "originalFileName" = some (JsVal.s "f.jpg") ∧
    lookupA (buildBinaryStreamObject "inv" evSeven
      ⟨"d/f.tiff", [("binarystreamobjectid", "B1"), ("originalfilename", "f.jpg")]⟩
      hdrPlain).properties "originalfilename" = none :=
  descriptor_fields_from_metadata "inv" evSeven
    ⟨"d/f.tiff", [("binarystreamobjectid", "B1"), ("originalfilename", "f.jpg")]⟩
    hdrPlain (by decide) (by decide)

/-! ## Claim C7 -/

/-- Counterexample for C7: the key `my-x-rdp-note` does not start with the
reserved prefix `x-rdp-` and is not a pre-existing property name, and the
key `originalfilename` likewise, yet neither is copied into the built
descriptor's properties: the source's loop skips any key that CONTAINS
`x-rdp` (`propertyName.includes('x-rdp')`), and a truthy `originalfilename`
is deleted before the loop. -/
theorem copy_through_startswith_cex :
    jsStartsWith "my-x-rdp-note" "x-rdp-" = false ∧
    jsStartsWith "originalfilename" "x-rdp-" = false ∧
    lookupA rTwoKeys.metadata "my-x-rdp-note" = some "n1" ∧
    lookupA (buildBinaryStreamObject "inv" evSeven rTwoKeys hdrPlain).properties
      "my-x-rdp-note" = none ∧
    lookupA (buildBinaryStreamObject "inv" evSeven rTwoKeys hdrPlain).properties
      "originalfilename" = none := by
  refine ⟨by decide, by decide, by decide, by decide, by decide⟩

/-- Claim C7 as amended: every entry of the metadata object remaining after
the original-filename removal whose key does not CONTAIN the substring
`x-rdp` and is not one of the pre-existing property names is copied
verbatim into the descriptor's properties; and no key starting with the
reserved prefix `x-rdp-` is ever present in the copied properties. -/
theorem copy_through_remaining_non_rdp (inv : String) (ev : EventGridEvent)
    (r : BlobMetadataResult) (hs : Headers) (k v : String)
    (hnd : (keysOf r.metadata).Nodup)
    (hmem : (k, v) ∈ remainingMetadata r.metadata)
    (hinc : jsIncludes k "x-rdp" = false)
    (hbase : k ∉ (["objectKey", "originalFileName", "fullObjectPath",
      "contentSize", "user", "role", "ownershipData"] : List String)) :
    lookupA (buildBinaryStreamObject inv ev r hs).properties k = some (JsVal.s v) ∧
    ∀ k', jsStartsWith k' "x-rdp-" = true →
      lookupA (buildBinaryStreamObject inv ev r hs).properties k' = none := by
  constructor
  · have key : ∀ fn : String,
        lookupA ((remainingMetadata r.metadata).foldl addProp
          (initialProps r.name fn ev.dataContentLength hs)) k = some (JsVal.s v) := by
      intro fn
      exact foldl_addProp_mem _ hmem (keysOf_remainingMetadata_nodup hnd) hinc
        (lookupA_initialProps_none _ _ _ _ hbase)
    simp only [buildBinaryStreamObject]
    exact key _
  · intro k' hpre
    have hbase' : k' ∉ (["objectKey", "originalFileName", "fullObjectPath",
        "contentSize", "user", "role", "ownershipData"] : List String) := by
      intro hmem'
      simp at hmem'
      rcases hmem' with h | h | h | h | h | h | h <;> rw [h] at hpre <;>
        exact absurd hpre (by decide)
    have key : ∀ fn : String,
        lookupA ((remainingMetadata r.metadata).foldl addProp
          (initialProps r.name fn ev.dataContentLength hs)) k' = none := by
      intro fn
      exact foldl_addProp_none_of_includes
        (lookupA_initialProps_none _ _ _ _ hbase')
        (jsIncludes_of_startsWith k' hpre)
    simp only [buildBinaryStreamObject]
    exact key _

/-- Witness for C7 (amended) at a concrete metadata object, with the
prefixed-key conjunct instantiated at `x-rdp-tenantid`. -/
theorem copy_through_remaining_non_rdp_witness :
    ("color", "red") ∈ remainingMetadata ([("color", "red")] : List (String × String)) ∧
    lookupA (buildBinaryStreamObject "inv" evSeven ⟨"f.txt", [("color", "red")]⟩
      hdrPlain).properties "color" = some (JsVal.s "red") ∧
    lookupA (buildBinaryStreamObject "inv" evSeven ⟨"f.txt", [("color", "red")]⟩
      hdrPlain).properties "x-rdp-tenantid" = none :=
  ⟨by decide,
   (copy_through_remaining_non_rdp "inv" evSeven ⟨"f.txt", [("color", "red")]⟩
     hdrPlain "color" "red" (by decide) (by decide) (by decide) (by decide)).1,
   (copy_through_remaining_non_rdp "inv" evSeven ⟨"f.txt", [("color", "red")]⟩
     hdrPlain "color" "red" (by decide) (by decide) (by decide) (by decide)).2
     "x-rdp-tenantid" (by decide)⟩

/-! ## Claim C8 -/

/-- Counterexample for C8: key normalization is not idempotent.
`String.replace` with a string pattern replaces only the FIRST occurrence
of the escaping prefix, so a key containing two occurrences is rewritten
again by a second normalization pass: applying normalization twice to
`{x_rdp_x_rdp_a: "v"}` yields `{x-rdp-x-rdp-a: "v"}`, not the once-result
`{x-rdp-x_rdp_a: "v"}`. -/
theorem normalize_twice_differs_cex :
    normalizeMetadata (normalizeMetadata [("x_rdp_x_rdp_a", "v")]) ≠
      normalizeMetadata [("x_rdp_x_rdp_a", "v")] := by decide

/-- Claim C8 as amended: normalization is idempotent on every metadata
object whose once-normalized keys no longer contain the escaping prefix
`x_rdp_` (after one pass keys are lower-cased, so only a remaining
occurrence of the escaping prefix can make a second pass differ). -/
theorem normalize_idem_no_escape_residue (m : List (String × String))
    (h : ∀ k ∈ keysOf (normalizeMetadata m),
      hasSubstr rdpEscapePre.data k.data = false) :
    normalizeMetadata (normalizeMetadata m) = normalizeMetadata m := by
  have hfix : ∀ k ∈ keysOf (normalizeMetadata m), normKey k = k := by
    intro k hk
    rcases keysOf_foldl_normStep_origin m [] hk with h0 | ⟨p, _, he⟩
    · simp [keysOf] at h0
    · rw [← he]
      exact normKey_normKey p.1 (by rw [he]; exact h k hk)
  have hnd : (keysOf (normalizeMetadata m)).Nodup :=
    keysOf_foldl_normStep_nodup m [] List.nodup_nil
  have hdisj : ∀ k ∈ keysOf (normalizeMetadata m),
      k ∉ keysOf ([] : List (String × String)) := by
    intro k _
    simp [keysOf]
  show (normalizeMetadata m).foldl normStep [] = normalizeMetadata m
  rw [foldl_normStep_fixed _ _ hfix hnd hdisj]
  exact List.nil_append _

/-- Witness for C8 (amended) at a concrete metadata object whose single key
carries one occurrence of the escaping prefix. -/
theorem normalize_idem_no_escape_residue_witness :
    (∀ k ∈ keysOf (normalizeMetadata [("x_rdp_TenantId", "T1")]),
      hasSubstr rdpEscapePre.data k.data = false) ∧
    normalizeMetadata (normalizeMetadata [("x_rdp_TenantId", "T1")]) =
      normalizeMetadata [("x_rdp_TenantId", "T1")] :=
  ⟨by decide, normalize_idem_no_escape_residue _ (by decide)⟩

/-! ## Claim C10 -/

theorem mem_keysOf_foldl_normStep_of_mem {p : String × String} :
    ∀ (l acc : List (String × String)), p ∈ l →
      normKey p.1 ∈ keysOf (l.foldl normStep acc)
  | [], _, hp => absurd hp (List.not_mem_nil p)
  | q :: t, acc, hp => by
    rw [List.foldl_cons]
    rcases List.mem_cons.mp hp with he | ht
    · subst he
      exact mem_keysOf_foldl_normStep t _ (mem_keysOf_setKey_self _ _ _)
    · exact mem_keysOf_foldl_normStep_of_mem t _ ht

theorem collide_len_aux (s t : List (String × String)) (a b : String × String)
    (hb : b ∈ t) (hcol : normKey b.1 = normKey a.1) :
    ((s ++ a :: t).foldl normStep []).length < (s ++ a :: t).length := by
  rw [List.foldl_append, List.foldl_cons]
  have hk : normKey b.1 ∈ keysOf (normStep (s.foldl normStep []) a) := by
    rw [hcol]
    exact mem_keysOf_setKey_self _ _ _
  have hlt := length_foldl_normStep_lt t (normStep (s.foldl normStep []) a) hb hk
  have hle1 := length_foldl_normStep_le s []
  have hle2 : (normStep (s.foldl normStep []) a).length ≤
      (s.foldl normStep []).length + 1 :=
    length_setKey_le (s.foldl normStep []) (normKey a.1) a.2
  simp only [List.length_append, List.length_cons, List.length_nil] at *
  omega

/-- Claim C10: key normalization is not injective; a metadata object with
two distinct keys that normalize to the same string shrinks strictly under
`getBlobMetadata`'s normalization, whose result binds the collided
normalized key (keys are pairwise distinct in the result) to the value of
one of the colliding input keys. -/
theorem normalize_collision_shrinks (m : List (String × String))
    (k₁ v₁ k₂ v₂ : String) (h1 : (k₁, v₁) ∈ m) (h2 : (k₂, v₂) ∈ m)
    (hne : k₁ ≠ k₂) (hcol : normKey k₁ = normKey k₂) :
    (normalizeMetadata m).length < m.length ∧
    (keysOf (normalizeMetadata m)).Nodup ∧
    ∃ v k, lookupA (normalizeMetadata m) (normKey k₁) = some v ∧
      (k, v) ∈ m ∧ normKey k = normKey k₁ := by
  refine ⟨?_, keysOf_foldl_normStep_nodup m [] List.nodup_nil, ?_⟩
  · rcases List.append_of_mem h1 with ⟨s, t, rfl⟩
    rcases List.mem_append.mp h2 with hs | hc
    · rcases List.append_of_mem hs with ⟨s', t', rfl⟩
      have := collide_len_aux s' (t' ++ (k₁, v₁) :: t) (k₂, v₂) (k₁, v₁)
        (List.mem_append.mpr (Or.inr (List.mem_cons_self _ _))) hcol
      show (((s' ++ (k₂, v₂) :: t') ++ (k₁, v₁) :: t).foldl normStep []).length <
        ((s' ++ (k₂, v₂) :: t') ++ (k₁, v₁) :: t).length
      simpa [List.append_assoc] using this
    · rcases List.mem_cons.mp hc with he | ht
      · exact absurd (congrArg Prod.fst he).symm hne
      · exact collide_len_aux s t (k₁, v₁) (k₂, v₂) ht hcol.symm
  · have hkmem : normKey k₁ ∈ keysOf (normalizeMetadata m) :=
      mem_keysOf_foldl_normStep_of_mem m [] h1
    obtain ⟨v, hv⟩ := lookupA_isSome_of_mem_keysOf hkmem
    rcases lookupA_foldl_normStep_origin m [] hv with h0 | ⟨p, hp, he, hval⟩
    · simp [lookupA_nil] at h0
    · refine ⟨v, p.1, hv, ?_, he⟩
      rw [← hval, Prod.mk.eta]
      exact hp

/-- Witness for C10 at the concrete colliding keys `A` and `a`. -/
theorem normalize_collision_shrinks_witness :
    normKey "A" = normKey "a" ∧
    ((normalizeMetadata [("A", "1"), ("a", "2")]).length <
      ([("A", "1"), ("a", "2")] : List (String × String)).length ∧
     (keysOf (normalizeMetadata [("A", "1"), ("a", "2")])).Nodup ∧
     ∃ v k, lookupA (normalizeMetadata [("A", "1"), ("a", "2")]) (normKey "A") = some v ∧
       (k, v) ∈ ([("A", "1"), ("a", "2")] : List (String × String)) ∧
       normKey k = normKey "A") :=
  ⟨by decide,
   normalize_collision_shrinks [("A", "1"), ("a", "2")] "A" "1" "a" "2"
     (by decide) (by decide) (by decide) (by decide)⟩

/-! ## Claim C4 -/

/-- The line-224 condition evaluates to `true` exactly when the parsed value
has a nested `response.status` string field equal to `"success"` after
lower-casing (the source's intermediate truthiness checks change only the
failure mode, never success). -/
theorem successCondition_ok_true_iff (j : Json) :
    successCondition j = Except.ok true ↔
      ∃ s, nestedStatus j = some (Json.jstr s) ∧ jsToLower s = "success" := by
  constructor
  · intro h
    unfold successCondition at h
    by_cases h1 : jsTruthyJson j = true
    case neg =>
      rw [Bool.not_eq_true] at h1
      rw [h1] at h
      simp at h
    case pos =>
      rw [h1] at h
      simp only [Bool.not_true, Bool.false_eq_true, if_false] at h
      rcases hr : getField j "response" with _ | r
      · rw [hr] at h
        simp at h
      · rw [hr] at h
        simp only [] at h
        by_cases h2 : jsTruthyJson r = true
        case neg =>
          rw [Bool.not_eq_true] at h2
          rw [h2] at h
          simp at h
        case pos =>
          rw [h2] at h
          simp only [Bool.not_true, Bool.false_eq_true, if_false] at h
          rcases hst : getField r "status" with _ | st
          · rw [hst] at h
            simp at h
          · rw [hst] at h
            simp only [] at h
            by_cases h3 : jsTruthyJson st = true
            case neg =>
              rw [Bool.not_eq_true] at h3
              rw [h3] at h
              simp at h
            case pos =>
              rw [h3] at h
              simp only [Bool.not_true, Bool.false_eq_true, if_false] at h
              cases st with
              | jstr s =>
                simp only [Except.ok.injEq] at h
                refine ⟨s, ?_, beq_iff_eq.mp h⟩
                unfold nestedStatus
                rw [hr]
                exact hst
              | jnull => simp at h
              | jbool b => simp at h
              | jnum n => simp at h
              | jarr es => simp at h
              | jobj fs => simp at h
  · rintro ⟨s, hns, hlow⟩
    unfold nestedStatus at hns
    rcases hr : getField j "response" with _ | r
    · rw [hr] at hns
      cases hns
    · rw [hr] at hns
      have hns2 : getField r "status" = some (Json.jstr s) := hns
      clear hns
      have hse : s ≠ "" := by
        intro he
        rw [he] at hlow
        exact absurd hlow (by decide)
      have hstt : jsTruthyJson (Json.jstr s) = true := by
        show (!s.isEmpty) = true
        cases hb : s.isEmpty
        · rfl
        · exact absurd ((String.isEmpty_iff s).mp hb) hse
      have hj : ∃ fields, j = Json.jobj fields := by
        cases j
        case jobj fields => exact ⟨fields, rfl⟩
        all_goals simp [getField] at hr
      obtain ⟨fields, rfl⟩ := hj
      have hrt : ∃ rfields, r = Json.jobj rfields := by
        cases r
        case jobj rfields => exact ⟨rfields, rfl⟩
        all_goals simp [getField] at hns2
      obtain ⟨rfields, rfl⟩ := hrt
      have hjt : jsTruthyJson (Json.jobj fields) = true := rfl
      have hrt2 : jsTruthyJson (Json.jobj rfields) = true := rfl
      unfold successCondition
      rw [hjt]
      simp only [Bool.not_true, Bool.false_eq_true, if_false]
      rw [hr]
      simp only []
      rw [hrt2]
      simp only [Bool.not_true, Bool.false_eq_true, if_false]
      rw [hns2]
      simp only []
      rw [hstt]
      simp only [Bool.not_true, Bool.false_eq_true, if_false]
      simp only [Except.ok.injEq]
      exact beq_iff_eq.mpr hlow

/-- Claim C4: the HTTP submitter reports success — completes the invocation
with `context.done()` and no error — exactly when the HTTP status code is
200 and the parsed response body's nested `response.status` field equals
`"success"` case-insensitively; concretely, a 200 response with body
`\x7b"response":\x7b"status":"Success"\x7d\x7d` completes successfully and
one with status `"failed"` completes with the failure message; the
`res.on('error')` handler never completes successfully either. -/
theorem post_success_iff :
    (∀ (sc : Nat) (body : String),
      onResponseEnd sc body = EndOutcome.done none ↔
        sc = 200 ∧ responseStatusSuccess body) ∧
    onResponseEnd 200 okBody = EndOutcome.done none ∧
    onResponseEnd 200 failBody = EndOutcome.done (some restApiFailMsg) ∧
    (∀ e, onResponseError e ≠ EndOutcome.done none) := by
  refine ⟨?_, by decide, by decide, ?_⟩
  · intro sc body
    constructor
    · intro h
      unfold onResponseEnd at h
      by_cases hc : (sc == 200 && jsTruthyStr body) = true
      case neg =>
        rw [if_neg hc] at h
        simp at h
      case pos =>
        rw [if_pos hc] at h
        rcases Bool.and_eq_true _ _ |>.mp hc with ⟨h200, hbody⟩
        have hsc : sc = 200 := beq_iff_eq.mp h200
        refine ⟨hsc, ?_⟩
        rcases hp : jsonParse body with _ | j
        · rw [hp] at h
          simp at h
        · rw [hp] at h
          simp only [] at h
          rcases hs2 : successCondition j with e | b
          · rw [hs2] at h
            simp at h
          · rw [hs2] at h
            cases b
            · simp at h
            · obtain ⟨s, hns, hlow⟩ := (successCondition_ok_true_iff j).mp hs2
              exact ⟨j, s, hp, hns, hlow⟩
    · rintro ⟨hsc, hrs⟩
      obtain ⟨j, s, hp, hns, hlow⟩ := hrs
      subst hsc
      have hbody : jsTruthyStr body = true := by
        show (!body.isEmpty) = true
        cases hb : body.isEmpty
        · rfl
        · exfalso
          have hbe : body = "" := (String.isEmpty_iff body).mp hb
          rw [hbe] at hp
          have : (none : Option Json) = some j := hp
          cases this
      have hs2 : successCondition j = Except.ok true :=
        (successCondition_ok_true_iff j).mpr ⟨s, hns, hlow⟩
      simp [onResponseEnd, hbody, hp, hs2]
  · intro e h
    simp [onResponseError] at h

/-- Witness for C4: the success iff applied at the concrete 200 /
`"Success"`-body input, with the parsed value exhibited explicitly. -/
theorem post_success_iff_witness :
    (200 = 200 ∧ responseStatusSuccess okBody) ∧
    onResponseEnd 200 okBody = EndOutcome.done none :=
  have hrs : responseStatusSuccess okBody :=
    ⟨Json.jobj [("response", Json.jobj [("status", Json.jstr "Success")])],
     "Success", rfl, rfl, by decide⟩
  ⟨⟨rfl, hrs⟩, (post_success_iff.1 200 okBody).mpr ⟨rfl, hrs⟩⟩

end EventGridFn
